import Mathlib

/-!
# Active Workout Session Engine — verification development

Shallow embedding of the active-workout-session store (`useWorkoutStore`)
of the repFIT mobile application, together with proofs about its
operations: the set-plan generator `generateSets`, the session lifecycle
operations `startWorkout` / `pauseWorkout` / `resumeWorkout` /
`endWorkout`, the set-management operations `completeSet` / `skipSet` /
`editSet`, and the clock `tick`.

The store mutates a JavaScript array of set objects.  The embedding keeps
the JavaScript runtime semantics that the source relies on:

* an array is a list of optional objects, where a missing element
  (an array hole, produced by writing past the end) is `none`;
* writing at an index beyond the current length extends the array,
  padding with holes;
* spreading `undefined` into an object literal produces an object with
  no own fields, so every field of a set object is optional;
* reading a property of `undefined` throws a `TypeError`, modelled with
  the `Except` monad.

Numbers that the engine only carries around (reps, weights, ids,
timestamps) are modelled as `Int`; counters that only ever grow from
zero (`elapsedSeconds`, `currentSetIndex`, set numbers) as `Nat`.
-/

namespace RepFit

/-- Completion status of one planned set (`type SetStatus`). -/
inductive SetStatus
  | pending
  | completed
  | skipped
deriving DecidableEq

/-- One entry of the flat set plan (`interface ActiveSet`).  Every field
is optional because the JavaScript runtime can produce objects missing
any of them (spreading an `undefined` array element); entries built by
`generateSets` always carry `exerciseIndex`, `setNumber`, `targetReps`
and `status`.  For `targetWeight`, `none` stands for both `null` and an
absent field (the two are indistinguishable to every operation of the
store, all of which read it only through `??` or carry it opaquely). -/
structure ActiveSet where
  exerciseIndex : Option Nat
  setNumber : Option Nat
  targetReps : Option Int
  targetWeight : Option Int
  status : Option SetStatus
  actualReps : Option Int
  actualWeight : Option Int
deriving DecidableEq

/-- Day of the week (`type DayOfWeek`). -/
inductive DayOfWeek
  | monday | tuesday | wednesday | thursday | friday | saturday | sunday
deriving DecidableEq

/-- One exercise of a routine (`interface RoutineExercise`). -/
structure RoutineExercise where
  id : Int
  routine_id : Int
  exercise_name : String
  target_sets : Int
  target_reps : Int
  target_weight : Option Int
  order : Int
  notes : Option String
deriving DecidableEq

/-- A routine (`interface Routine`). -/
structure Routine where
  id : Int
  user_id : Int
  name : String
  description : Option String
  day_of_week : Option DayOfWeek
  exercises : List RoutineExercise
  created_at : String
  updated_at : String
deriving DecidableEq

/-- The session state owned by the store (`interface WorkoutState`,
state fields only).  `sets` is a JavaScript array: `none` is a hole.
`startTime` is an opaque timestamp (`Date | null`); the store never
reads it. -/
structure WorkoutState where
  isActive : Bool
  isPaused : Bool
  routine : Option Routine
  startTime : Option Int
  elapsedSeconds : Nat
  sets : List (Option ActiveSet)
  currentSetIndex : Nat
deriving DecidableEq

/-- The summary returned by `endWorkout`. -/
structure WorkoutSummary where
  duration : Nat
  completedSets : List ActiveSet
deriving DecidableEq

/-- Errors an operation can surface.  The spec's taxonomy names
`InvalidIndex` and `InvalidTransition`; the runtime can also throw a
JavaScript `TypeError` (reading a property of `undefined`). -/
inductive WorkoutError
  | InvalidIndex
  | InvalidTransition
  | TypeError
deriving DecidableEq

instance {ε α : Type} [DecidableEq ε] [DecidableEq α] :
    DecidableEq (Except ε α)
  | .ok a, .ok b => decidable_of_iff (a = b) (by simp)
  | .error a, .error b => decidable_of_iff (a = b) (by simp)
  | .ok _, .error _ => .isFalse fun h => Except.noConfusion h
  | .error _, .ok _ => .isFalse fun h => Except.noConfusion h

/-- The object produced by spreading `undefined`: no own fields. -/
def emptyObj : ActiveSet :=
  { exerciseIndex := none, setNumber := none, targetReps := none,
    targetWeight := none, status := none, actualReps := none,
    actualWeight := none }

/-- JavaScript array read `a[i]`: out of range and holes both give
`undefined`. -/
def jsRead (l : List (Option ActiveSet)) (i : Nat) : Option ActiveSet :=
  (l.get? i).join

/-- JavaScript array write `a[i] = v`: in range it replaces the element,
past the end it extends the array, padding with holes. -/
def jsWrite (l : List (Option ActiveSet)) (i : Nat) (v : ActiveSet) :
    List (Option ActiveSet) :=
  if i < l.length then l.set i (some v)
  else l ++ List.replicate (i - l.length) none ++ [some v]

/-- The `findIndex` scan of `completeSet`:
`newSets.findIndex((s, i) => i > index && s.status === 'pending')`.
`k` is the position of the head of `l` in the full array.  Because `&&`
short-circuits, a hole at a position `≤ index` is skipped without being
dereferenced, while a hole at a position `> index` throws (`s.status`
of `undefined`).  Returns the found position, or `none` for `-1`. -/
def findNextPendingAux (index : Nat) :
    List (Option ActiveSet) → Nat → Except WorkoutError (Option Nat)
  | [], _ => .ok none
  | e :: rest, k =>
    if k > index then
      match e with
      | none => .error .TypeError
      | some s =>
        if s.status = some .pending then .ok (some k)
        else findNextPendingAux index rest (k + 1)
    else findNextPendingAux index rest (k + 1)

/-- The full `findIndex` scan, from position 0. -/
def findNextPending (l : List (Option ActiveSet)) (index : Nat) :
    Except WorkoutError (Option Nat) :=
  findNextPendingAux index l 0

/-- The filter of `endWorkout`:
`sets.filter(s => s.status === 'completed')`.  A hole makes `s.status`
throw; otherwise the kept elements appear in array order. -/
def jsFilterCompleted :
    List (Option ActiveSet) → Except WorkoutError (List ActiveSet)
  | [] => .ok []
  | none :: _ => .error .TypeError
  | some s :: rest =>
    match jsFilterCompleted rest with
    | .error e => .error e
    | .ok cs => if s.status = some .completed then .ok (s :: cs) else .ok cs

/-- The sets one exercise contributes to the flat plan: the inner loop
`for (let setNum = 1; setNum <= exercise.target_sets; setNum++)` of
`generateSets`.  A non-positive `target_sets` runs the loop zero
times. -/
def setsForExercise (exerciseIndex : Nat) (e : RoutineExercise) :
    List ActiveSet :=
  (List.range e.target_sets.toNat).map fun k =>
    { exerciseIndex := some exerciseIndex, setNumber := some (k + 1),
      targetReps := some e.target_reps, targetWeight := e.target_weight,
      status := some .pending, actualReps := none, actualWeight := none }

/-- Generate all sets from a routine's exercises (`generateSets`):
iterate the exercises in order, emitting each one's sets in order. -/
def generateSets (routine : Routine) : List ActiveSet :=
  (routine.exercises.enum.map fun p => setsForExercise p.1 p.2).flatten

/-- The store's initial state. -/
def initialState : WorkoutState :=
  { isActive := false, isPaused := false, routine := none,
    startTime := none, elapsedSeconds := 0, sets := [],
    currentSetIndex := 0 }

/-- `startWorkout(routine)`: one atomic update writing every field, so
the previous state is irrelevant.  `now` is the timestamp
`new Date()`. -/
def startWorkout (_st : WorkoutState) (routine : Routine) (now : Int) :
    WorkoutState :=
  { isActive := true, isPaused := false, routine := some routine,
    startTime := some now, elapsedSeconds := 0,
    sets := (generateSets routine).map some, currentSetIndex := 0 }

/-- `pauseWorkout()`: sets the pause flag, with no guard. -/
def pauseWorkout (st : WorkoutState) : WorkoutState :=
  { st with isPaused := true }

/-- `resumeWorkout()`: clears the pause flag, with no guard. -/
def resumeWorkout (st : WorkoutState) : WorkoutState :=
  { st with isPaused := false }

/-- `endWorkout()`: captures `elapsedSeconds` and `sets`, resets every
state field, and returns the summary.  The reset is applied before the
filter runs, so the first component is the reset state even when the
filter throws on a hole. -/
def endWorkout (st : WorkoutState) :
    WorkoutState × Except WorkoutError WorkoutSummary :=
  ({ isActive := false, isPaused := false, routine := none,
     startTime := none, elapsedSeconds := 0, sets := [],
     currentSetIndex := 0 },
   match jsFilterCompleted st.sets with
   | .error e => .error e
   | .ok cs => .ok { duration := st.elapsedSeconds, completedSets := cs })

/-- The tail of `completeSet` after the replacement entry has been
built: write it, rescan for the next pending set, and update the
cursor only when the scan found one (`nextIndex >= 0`). -/
def completeSetApply (st : WorkoutState) (index : Nat)
    (newEntry : ActiveSet) : Except WorkoutError WorkoutState :=
  let newSets := jsWrite st.sets index newEntry
  match findNextPending newSets index with
  | .error e => .error e
  | .ok (some j) => .ok { st with sets := newSets, currentSetIndex := j }
  | .ok none => .ok { st with sets := newSets }

/-- `completeSet(index, actualReps?, actualWeight?)`.  The replacement
entry spreads the existing element and overrides `status`,
`actualReps` (defaulting to `targetReps` via `??`) and `actualWeight`
(defaulting to `targetWeight ?? undefined`).  When the element is
`undefined` (index out of range, or a hole), the spread contributes no
fields, and an omitted argument makes the `??` right-hand side
dereference `undefined`, throwing a `TypeError`. -/
def completeSet (st : WorkoutState) (index : Nat)
    (actualReps actualWeight : Option Int) :
    Except WorkoutError WorkoutState :=
  match jsRead st.sets index with
  | some s =>
    let newAR : Option Int :=
      match actualReps with
      | some r => some r
      | none => s.targetReps
    let newAW : Option Int :=
      match actualWeight with
      | some w => some w
      | none => s.targetWeight
    completeSetApply st index
      { s with
        status := some .completed,
        actualReps := newAR, actualWeight := newAW }
  | none =>
    match actualReps, actualWeight with
    | none, _ => .error .TypeError
    | some _, none => .error .TypeError
    | some r, some w =>
      completeSetApply st index
        { emptyObj with
          status := some .completed,
          actualReps := some r, actualWeight := some w }

/-- `skipSet(index)`: spreads the existing element (or `undefined`) and
overrides `status`; touches nothing else.  Never throws. -/
def skipSet (st : WorkoutState) (index : Nat) :
    Except WorkoutError WorkoutState :=
  .ok { st with
    sets := jsWrite st.sets index
      { (jsRead st.sets index).getD emptyObj with status := some .skipped } }

/-- `editSet(index, reps, weight)`: spreads the existing element (or
`undefined`) and overrides the two actual fields; touches nothing
else.  Never throws. -/
def editSet (st : WorkoutState) (index : Nat) (reps weight : Int) :
    Except WorkoutError WorkoutState :=
  .ok { st with
    sets := jsWrite st.sets index
      { (jsRead st.sets index).getD emptyObj with
        actualReps := some reps, actualWeight := some weight } }

/-- `tick()`: advance the clock by one second when active and not
paused; otherwise do nothing. -/
def tick (st : WorkoutState) : WorkoutState :=
  if st.isActive && !st.isPaused then
    { st with elapsedSeconds := st.elapsedSeconds + 1 }
  else st

/-! ### Concrete states used by witnesses and counterexamples -/

/-- A sample exercise: three sets of five reps at weight 100. -/
def exExercise : RoutineExercise :=
  { id := 1, routine_id := 1, exercise_name := "squat", target_sets := 3,
    target_reps := 5, target_weight := some 100, order := 0, notes := none }

/-- A sample routine with the one exercise above. -/
def exRoutine : Routine :=
  { id := 1, user_id := 1, name := "legs", description := none,
    day_of_week := none, exercises := [exExercise], created_at := "",
    updated_at := "" }

/-- The session obtained by starting `exRoutine`: three pending sets. -/
def exActive : WorkoutState := startWorkout initialState exRoutine 0

/-- A sample plan entry with the given status. -/
def exEntry (status : SetStatus) : ActiveSet :=
  { exerciseIndex := some 0, setNumber := some 1, targetReps := some 5,
    targetWeight := some 100, status := some status, actualReps := none,
    actualWeight := none }

/-- A mid-session state: sets 0 and 2 completed out of three, 42 seconds
elapsed. -/
def exMidSession : WorkoutState :=
  { isActive := true, isPaused := false, routine := some exRoutine,
    startTime := some 0, elapsedSeconds := 42,
    sets := [some (exEntry .completed), some (exEntry .pending),
             some (exEntry .completed)],
    currentSetIndex := 1 }

/-- A state whose single entry is already completed with recorded
actuals, used to show recompletion overwrites them. -/
def exRecorded : WorkoutState :=
  { isActive := true, isPaused := false, routine := some exRoutine,
    startTime := some 0, elapsedSeconds := 10,
    sets := [some { exEntry .completed with
                    actualReps := some 99, actualWeight := some 77 }],
    currentSetIndex := 0 }

/-! ### Derived notions used in specifications -/

/-- Position `j` of the array holds an entry whose status is
`pending`. -/
def PendingAt (l : List (Option ActiveSet)) (j : Nat) : Prop :=
  ∃ s, l.get? j = some (some s) ∧ s.status = some SetStatus.pending

/-- The replacement entry `completeSet` builds from an existing element
`s`: status `completed`, actuals defaulted through `??` from the
targets. -/
def completedEntry (s : ActiveSet) (r w : Option Int) : ActiveSet :=
  let newAR : Option Int :=
    match r with
    | some x => some x
    | none => s.targetReps
  let newAW : Option Int :=
    match w with
    | some x => some x
    | none => s.targetWeight
  { s with
    status := some .completed, actualReps := newAR, actualWeight := newAW }

/-- Frame condition for a set-management operation targeting `index`:
session flags, clock, routine and timestamp are untouched, the array
keeps its length, every other position is untouched, and the targeted
entry keeps its identification and target fields. -/
def FramePreserved (st st2 : WorkoutState) (index : Nat) : Prop :=
  st2.isActive = st.isActive ∧ st2.isPaused = st.isPaused ∧
  st2.elapsedSeconds = st.elapsedSeconds ∧ st2.routine = st.routine ∧
  st2.startTime = st.startTime ∧ st2.sets.length = st.sets.length ∧
  (∀ j, j ≠ index → st2.sets.get? j = st.sets.get? j) ∧
  ∀ s, st.sets.get? index = some (some s) →
    ∃ e, st2.sets.get? index = some (some e) ∧
      e.exerciseIndex = s.exerciseIndex ∧ e.setNumber = s.setNumber ∧
      e.targetReps = s.targetReps ∧ e.targetWeight = s.targetWeight

/-! ### Basic lemmas about the array primitives -/

lemma jsRead_of_get (l : List (Option ActiveSet)) (i : Nat) (s : ActiveSet)
    (h : l.get? i = some (some s)) : jsRead l i = some s := by
  unfold jsRead
  rw [h]
  rfl

lemma jsWrite_of_lt (l : List (Option ActiveSet)) (i : Nat) (v : ActiveSet)
    (h : i < l.length) : jsWrite l i v = l.set i (some v) := by
  simp [jsWrite, h]

lemma jsWrite_length_of_le (l : List (Option ActiveSet)) (i : Nat)
    (v : ActiveSet) (h : l.length ≤ i) :
    (jsWrite l i v).length = i + 1 := by
  have hni : ¬ i < l.length := by omega
  simp [jsWrite, hni]
  omega

lemma dense_set (l : List (Option ActiveSet)) (i : Nat) (v : ActiveSet)
    (hd : (none : Option ActiveSet) ∉ l) :
    (none : Option ActiveSet) ∉ l.set i (some v) := by
  intro hm
  rcases List.mem_or_eq_of_mem_set hm with h | h
  · exact hd h
  · exact Option.noConfusion h

lemma dense_get (l : List (Option ActiveSet))
    (hd : (none : Option ActiveSet) ∉ l) (i : Nat) (h : i < l.length) :
    ∃ s, l.get? i = some (some s) := by
  have h2 : l.get? i = some (l.get ⟨i, h⟩) := List.get?_eq_get h
  match hg : l.get ⟨i, h⟩ with
  | none => exact absurd (hg ▸ l.get_mem i h) hd
  | some s => exact ⟨s, by rw [h2, hg]⟩

lemma findNextPendingAux_error (index : Nat) :
    ∀ (l : List (Option ActiveSet)) (k : Nat) (e : WorkoutError),
      findNextPendingAux index l k = .error e → e = .TypeError := by
  intro l
  induction l with
  | nil => intro k e h; exact Except.noConfusion h
  | cons a rest ih =>
    intro k e h
    by_cases hk : k > index
    · match a with
      | none =>
        simp [findNextPendingAux, hk] at h
        exact h.symm
      | some s =>
        by_cases hp : s.status = some SetStatus.pending
        · simp [findNextPendingAux, hk, hp] at h
        · simp [findNextPendingAux, hk, hp] at h
          exact ih (k + 1) e h
    · simp [findNextPendingAux, hk] at h
      exact ih (k + 1) e h

/-! ### The forward scan for the next pending set -/

lemma findNextPendingAux_spec (index : Nat) (l : List (Option ActiveSet)) :
    ∀ k : Nat, (none : Option ActiveSet) ∉ l →
      (findNextPendingAux index l k = .ok none ∧
        ∀ j s, l.get? j = some (some s) → k + j > index →
          s.status ≠ some SetStatus.pending) ∨
      (∃ j s, findNextPendingAux index l k = .ok (some (k + j)) ∧
        l.get? j = some (some s) ∧ s.status = some SetStatus.pending ∧
        k + j > index ∧
        ∀ j2 s2, j2 < j → l.get? j2 = some (some s2) → k + j2 > index →
          s2.status ≠ some SetStatus.pending) := by
  induction l with
  | nil =>
    intro k _
    left
    refine ⟨rfl, ?_⟩
    intro j s hj
    simp at hj
  | cons a rest ih =>
    intro k hd
    have he : a ≠ none := fun h => hd (h ▸ List.mem_cons_self _ _)
    have hdr : (none : Option ActiveSet) ∉ rest :=
      fun h => hd (List.mem_cons_of_mem _ h)
    obtain ⟨b, rfl⟩ := Option.ne_none_iff_exists'.mp he
    by_cases hk : k > index
    · by_cases hp : b.status = some SetStatus.pending
      · right
        refine ⟨0, b, ?_, rfl, hp, by omega, ?_⟩
        · simp [findNextPendingAux, hk, hp]
        · intro j2 s2 h
          omega
      · rcases ih (k + 1) hdr with ⟨hok, hall⟩ | ⟨j, s, hok, hget, hp2, hgt, hmin⟩
        · left
          constructor
          · simpa [findNextPendingAux, hk, hp] using hok
          · intro j s hj hgt
            cases j with
            | zero =>
              simp only [List.get?_cons_zero, Option.some.injEq] at hj
              rw [← hj]
              exact hp
            | succ j3 =>
              rw [List.get?_cons_succ] at hj
              exact hall j3 s hj (by omega)
        · right
          refine ⟨j + 1, s, ?_, ?_, hp2, by omega, ?_⟩
          · have harith : k + (j + 1) = (k + 1) + j := by omega
            rw [harith]
            simpa [findNextPendingAux, hk, hp] using hok
          · rw [List.get?_cons_succ]
            exact hget
          · intro j2 s2 hlt hj2 hgt2
            cases j2 with
            | zero =>
              simp only [List.get?_cons_zero, Option.some.injEq] at hj2
              rw [← hj2]
              exact hp
            | succ j3 =>
              rw [List.get?_cons_succ] at hj2
              exact hmin j3 s2 (by omega) hj2 (by omega)
    · rcases ih (k + 1) hdr with ⟨hok, hall⟩ | ⟨j, s, hok, hget, hp2, hgt, hmin⟩
      · left
        constructor
        · simpa [findNextPendingAux, hk] using hok
        · intro j s hj hgt
          cases j with
          | zero => exact absurd hgt (by omega)
          | succ j3 =>
            rw [List.get?_cons_succ] at hj
            exact hall j3 s hj (by omega)
      · right
        refine ⟨j + 1, s, ?_, ?_, hp2, by omega, ?_⟩
        · have harith : k + (j + 1) = (k + 1) + j := by omega
          rw [harith]
          simpa [findNextPendingAux, hk] using hok
        · rw [List.get?_cons_succ]
          exact hget
        · intro j2 s2 hlt hj2 hgt2
          cases j2 with
          | zero => exact absurd hgt2 (by omega)
          | succ j3 =>
            rw [List.get?_cons_succ] at hj2
            exact hmin j3 s2 (by omega) hj2 (by omega)

lemma findNextPending_spec (l : List (Option ActiveSet)) (index : Nat)
    (hd : (none : Option ActiveSet) ∉ l) :
    (findNextPending l index = .ok none ∧
      ∀ j s, l.get? j = some (some s) → j > index →
        s.status ≠ some SetStatus.pending) ∨
    (∃ j s, findNextPending l index = .ok (some j) ∧
      l.get? j = some (some s) ∧ s.status = some SetStatus.pending ∧
      j > index ∧
      ∀ j2 s2, j2 < j → l.get? j2 = some (some s2) → j2 > index →
        s2.status ≠ some SetStatus.pending) := by
  have h := findNextPendingAux_spec index l 0 hd
  simpa [findNextPending] using h

/-! ### Reduction of the set-management operations on in-range, dense
states -/

lemma completeSet_of_get (st : WorkoutState) (index : Nat) (s : ActiveSet)
    (r w : Option Int) (hs : st.sets.get? index = some (some s)) :
    completeSet st index r w =
      completeSetApply st index (completedEntry s r w) := by
  unfold completeSet
  rw [jsRead_of_get st.sets index s hs]
  rfl

lemma completeSetApply_ok (st : WorkoutState) (index : Nat) (v : ActiveSet)
    (h : index < st.sets.length) (hd : (none : Option ActiveSet) ∉ st.sets) :
    ∃ st2, completeSetApply st index v = .ok st2 ∧
      st2.sets = st.sets.set index (some v) ∧
      st2.isActive = st.isActive ∧ st2.isPaused = st.isPaused ∧
      st2.routine = st.routine ∧ st2.startTime = st.startTime ∧
      st2.elapsedSeconds = st.elapsedSeconds ∧
      ((st2.currentSetIndex = st.currentSetIndex ∧
         ∀ j s2, st.sets.get? j = some (some s2) → j > index →
           s2.status ≠ some SetStatus.pending) ∨
       (st2.currentSetIndex > index ∧
         (∃ s2, st.sets.get? st2.currentSetIndex = some (some s2) ∧
           s2.status = some SetStatus.pending) ∧
         ∀ j2 s2, j2 < st2.currentSetIndex → j2 > index →
           st.sets.get? j2 = some (some s2) →
           s2.status ≠ some SetStatus.pending)) := by
  have hw : jsWrite st.sets index v = st.sets.set index (some v) :=
    jsWrite_of_lt _ _ _ h
  have hdn : (none : Option ActiveSet) ∉ st.sets.set index (some v) :=
    dense_set _ _ _ hd
  have hne : ∀ j : Nat, j > index →
      (st.sets.set index (some v)).get? j = st.sets.get? j := by
    intro j hj
    exact List.get?_set_ne _ _ (by omega)
  rcases findNextPending_spec (st.sets.set index (some v)) index hdn with
    ⟨hok, hall⟩ | ⟨j, s2, hok, hget, hp, hgt, hmin⟩
  · have happ : completeSetApply st index v =
        .ok { st with sets := st.sets.set index (some v) } := by
      simp only [completeSetApply, hw, hok]
    refine ⟨_, happ, rfl, rfl, rfl, rfl, rfl, rfl, ?_⟩
    left
    refine ⟨rfl, ?_⟩
    intro j s2 hj hgt
    exact hall j s2 (by rw [hne j hgt]; exact hj) hgt
  · have happ : completeSetApply st index v =
        .ok { st with
              sets := st.sets.set index (some v), currentSetIndex := j } := by
      simp only [completeSetApply, hw, hok]
    refine ⟨_, happ, rfl, rfl, rfl, rfl, rfl, rfl, ?_⟩
    right
    refine ⟨hgt, ⟨s2, by rw [← hne j hgt]; exact hget, hp⟩, ?_⟩
    intro j2 s3 hlt hgt2 hj2
    exact hmin j2 s3 hlt (by rw [hne j2 hgt2]; exact hj2) hgt2

lemma skipSet_of_get (st : WorkoutState) (index : Nat) (s : ActiveSet)
    (hs : st.sets.get? index = some (some s)) :
    skipSet st index =
      .ok { st with
            sets := st.sets.set index
              (some { s with status := some SetStatus.skipped }) } := by
  obtain ⟨h, -⟩ := List.get?_eq_some.mp hs
  unfold skipSet
  rw [jsRead_of_get st.sets index s hs, jsWrite_of_lt _ _ _ h]
  rfl

lemma editSet_of_get (st : WorkoutState) (index : Nat) (s : ActiveSet)
    (reps weight : Int) (hs : st.sets.get? index = some (some s)) :
    editSet st index reps weight =
      .ok { st with
            sets := st.sets.set index
              (some { s with
                      actualReps := some reps,
                      actualWeight := some weight }) } := by
  obtain ⟨h, -⟩ := List.get?_eq_some.mp hs
  unfold editSet
  rw [jsRead_of_get st.sets index s hs, jsWrite_of_lt _ _ _ h]
  rfl

/-! ### The summary filter -/

lemma jsFilterCompleted_spec (l : List (Option ActiveSet))
    (hd : (none : Option ActiveSet) ∉ l) :
    ∃ cs, jsFilterCompleted l = .ok cs ∧
      List.Sublist (cs.map some) l ∧
      (∀ s ∈ cs, s.status = some SetStatus.completed) ∧
      ∀ s : ActiveSet, s.status = some SetStatus.completed →
        cs.count s = l.count (some s) := by
  induction l with
  | nil =>
    exact ⟨[], rfl, by simp, by simp, by simp⟩
  | cons a rest ih =>
    have he : a ≠ none := fun h => hd (h ▸ List.mem_cons_self _ _)
    have hdr : (none : Option ActiveSet) ∉ rest :=
      fun h => hd (List.mem_cons_of_mem _ h)
    obtain ⟨b, rfl⟩ := Option.ne_none_iff_exists'.mp he
    obtain ⟨cs, hok, hsub, hcomp, hcount⟩ := ih hdr
    by_cases hb : b.status = some SetStatus.completed
    · refine ⟨b :: cs, ?_, ?_, ?_, ?_⟩
      · simp [jsFilterCompleted, hok, hb]
      · exact List.Sublist.cons₂ _ hsub
      · intro s hs
        rcases List.mem_cons.mp hs with h | h
        · rw [h]; exact hb
        · exact hcomp s h
      · intro s hsc
        rw [List.count_cons, List.count_cons, hcount s hsc]
        by_cases hbs : b = s
        · simp [hbs]
        · simp [hbs]
    · refine ⟨cs, ?_, List.Sublist.cons _ hsub, hcomp, ?_⟩
      · simp [jsFilterCompleted, hok, hb]
      · intro s hsc
        have hbs : b ≠ s := fun h => hb (h ▸ hsc)
        rw [List.count_cons, hcount s hsc]
        simp [hbs]

lemma jsFilterCompleted_of_no_completed (l : List ActiveSet)
    (h : ∀ s ∈ l, s.status ≠ some SetStatus.completed) :
    jsFilterCompleted (l.map some) = .ok [] := by
  induction l with
  | nil => rfl
  | cons a rest ih =>
    have ha := h a (List.mem_cons_self _ _)
    have hr := ih fun s hs => h s (List.mem_cons_of_mem _ hs)
    simp [jsFilterCompleted, hr, ha]

/-! ### The set-plan generator -/

lemma setsForExercise_length (i : Nat) (e : RoutineExercise) :
    (setsForExercise i e).length = e.target_sets.toNat := by
  simp [setsForExercise]

lemma setsForExercise_get (i : Nat) (e : RoutineExercise) (k : Nat)
    (hk : k < (setsForExercise i e).length) :
    (setsForExercise i e).get ⟨k, hk⟩ =
      { exerciseIndex := some i, setNumber := some (k + 1),
        targetReps := some e.target_reps, targetWeight := e.target_weight,
        status := some SetStatus.pending, actualReps := none,
        actualWeight := none } := by
  unfold setsForExercise
  rw [List.get_map, List.get_range]

lemma generateSets_all_pending (r : Routine) :
    ∀ s ∈ generateSets r, s.status = some SetStatus.pending ∧
      s.actualReps = none ∧ s.actualWeight = none := by
  intro s hs
  simp only [generateSets, List.mem_flatten, List.mem_map] at hs
  obtain ⟨l, ⟨p, -, rfl⟩, hsl⟩ := hs
  simp only [setsForExercise, List.mem_map] at hsl
  obtain ⟨k, -, rfl⟩ := hsl
  exact ⟨rfl, rfl, rfl⟩

/-! ### The clock -/

lemma tick_of_running (st : WorkoutState) (hA : st.isActive = true)
    (hP : st.isPaused = false) :
    tick st = { st with elapsedSeconds := st.elapsedSeconds + 1 } := by
  simp [tick, hA, hP]

lemma tick_of_not_running (st : WorkoutState)
    (h : ¬(st.isActive = true ∧ st.isPaused = false)) : tick st = st := by
  match hA : st.isActive, hP : st.isPaused with
  | false, _ => simp [tick, hA]
  | true, true => simp [tick, hA, hP]
  | true, false => exact absurd ⟨hA, hP⟩ h

lemma tick_iterate (st : WorkoutState) (hA : st.isActive = true)
    (hP : st.isPaused = false) (n : Nat) :
    (tick^[n] st).elapsedSeconds = st.elapsedSeconds + n ∧
      (tick^[n] st).isActive = true ∧ (tick^[n] st).isPaused = false := by
  induction n with
  | zero => simp [hA, hP]
  | succ n ih =>
    obtain ⟨h1, h2, h3⟩ := ih
    rw [Function.iterate_succ_apply', tick_of_running _ h2 h3]
    refine ⟨?_, h2, h3⟩
    simp [h1]
    omega

/-! ### Error classification and out-of-range behaviour -/

lemma completeSetApply_error (st : WorkoutState) (index : Nat)
    (v : ActiveSet) (e : WorkoutError)
    (h : completeSetApply st index v = .error e) : e = .TypeError := by
  cases hf : findNextPending (jsWrite st.sets index v) index with
  | error e2 =>
    simp only [completeSetApply, hf] at h
    injection h with h2
    rw [← h2]
    exact findNextPendingAux_error index _ 0 e2 hf
  | ok o =>
    cases o <;> simp only [completeSetApply, hf] at h <;>
      exact Except.noConfusion h

lemma completeSet_error (st : WorkoutState) (index : Nat)
    (r w : Option Int) (e : WorkoutError)
    (h : completeSet st index r w = .error e) : e = .TypeError := by
  unfold completeSet at h
  cases hcur : jsRead st.sets index with
  | some s =>
    rw [hcur] at h
    exact completeSetApply_error _ _ _ _ h
  | none =>
    rw [hcur] at h
    match r, w, h with
    | none, _, h => cases h; rfl
    | some _, none, h => cases h; rfl
    | some x, some y, h => exact completeSetApply_error _ _ _ _ h

lemma jsRead_out_of_range (l : List (Option ActiveSet)) (i : Nat)
    (h : l.length ≤ i) : jsRead l i = none := by
  unfold jsRead
  rw [List.get?_len_le h]
  rfl

lemma skipSet_out_of_range (st : WorkoutState) (index : Nat)
    (h : st.sets.length ≤ index) :
    skipSet st index =
      .ok { st with
            sets := st.sets ++ List.replicate (index - st.sets.length) none
              ++ [some { emptyObj with status := some SetStatus.skipped }] } := by
  have hni : ¬ index < st.sets.length := by omega
  unfold skipSet jsWrite
  rw [jsRead_out_of_range st.sets index h, if_neg hni]
  rfl

lemma completeSet_out_of_range_omitted (st : WorkoutState) (index : Nat)
    (h : st.sets.length ≤ index) :
    completeSet st index none none = .error .TypeError := by
  unfold completeSet
  rw [jsRead_out_of_range st.sets index h]

/-! ### Frame reasoning -/

lemma frame_of_set (st st2 : WorkoutState) (index : Nat) (v : ActiveSet)
    (hsets : st2.sets = st.sets.set index (some v))
    (hA : st2.isActive = st.isActive) (hP : st2.isPaused = st.isPaused)
    (hE : st2.elapsedSeconds = st.elapsedSeconds)
    (hR : st2.routine = st.routine) (hT : st2.startTime = st.startTime)
    (hv : ∀ s, st.sets.get? index = some (some s) →
      v.exerciseIndex = s.exerciseIndex ∧ v.setNumber = s.setNumber ∧
      v.targetReps = s.targetReps ∧ v.targetWeight = s.targetWeight)
    (h : index < st.sets.length) :
    FramePreserved st st2 index := by
  refine ⟨hA, hP, hE, hR, hT, by rw [hsets]; exact List.length_set _ _ _,
    ?_, ?_⟩
  · intro j hj
    rw [hsets]
    exact List.get?_set_ne _ _ (Ne.symm hj)
  · intro s hsome
    obtain ⟨h1, h2, h3, h4⟩ := hv s hsome
    exact ⟨v, by rw [hsets]; exact List.get?_set_eq_of_lt _ h, h1, h2, h3, h4⟩

/-! ## Claim theorems -/

/-- C1, counterexample.  On the concrete active session `exActive`
(three planned sets), `skipSet 3` — index equal to the plan length —
reports neither `InvalidIndex` nor any other error and extends the set
sequence with a stub entry, changing the state; and from the initial
`Idle` state, `skipSet 0` reports no `InvalidTransition` and also
changes the state.  This refutes the claim that such calls report
`InvalidIndex` / `InvalidTransition` and leave the state unaltered. -/
theorem skipSet_unvalidated_cex :
    skipSet exActive 3 ≠ .error WorkoutError.InvalidIndex ∧
    skipSet exActive 3 =
      .ok { exActive with
            sets := exActive.sets ++
              [some { emptyObj with status := some SetStatus.skipped }] } ∧
    { exActive with
      sets := exActive.sets ++
        [some { emptyObj with status := some SetStatus.skipped }] } ≠
      exActive ∧
    skipSet initialState 0 ≠ .error WorkoutError.InvalidTransition ∧
    skipSet initialState 0 =
      .ok { initialState with
            sets := [some { emptyObj with status := some SetStatus.skipped }] } ∧
    { initialState with
      sets := [some { emptyObj with status := some SetStatus.skipped }] } ≠
      initialState := by
  decide

/-- C1, amended: `completeSet`, `skipSet` and `editSet` perform no
index-bounds and no activity validation.  `skipSet` and `editSet`
always succeed, whatever the index and whether or not a session is
active; `completeSet` never reports `InvalidIndex` or
`InvalidTransition` — any error it raises is the JavaScript
`TypeError` of dereferencing `undefined` (for instance, a call with
index ≥ plan length and omitted actual values throws one); an
out-of-range `skipSet` is not rejected but extends the set sequence,
altering the state; and the activity flag is irrelevant to what
`skipSet` does to the sets. -/
theorem setOps_perform_no_validation (st : WorkoutState) (index : Nat) :
    (∃ st2, skipSet st index = .ok st2) ∧
    (∀ reps weight : Int, ∃ st2, editSet st index reps weight = .ok st2) ∧
    (∀ (r w : Option Int) (e : WorkoutError),
      completeSet st index r w = .error e → e = .TypeError) ∧
    (st.sets.length ≤ index →
      completeSet st index none none = .error .TypeError) ∧
    (st.sets.length ≤ index →
      ∀ st2, skipSet st index = .ok st2 →
        st2.sets.length = index + 1 ∧ st2 ≠ st) ∧
    (∀ st2 st3, skipSet st index = .ok st2 →
      skipSet { st with isActive := false, isPaused := false } index =
        .ok st3 →
      st3.sets = st2.sets) := by
  refine ⟨⟨_, rfl⟩, fun reps weight => ⟨_, rfl⟩,
    fun r w e h => completeSet_error st index r w e h,
    fun h => completeSet_out_of_range_omitted st index h, ?_, ?_⟩
  · intro h st2 hok
    unfold skipSet at hok
    injection hok with hok2
    constructor
    · rw [← hok2]
      exact jsWrite_length_of_le _ _ _ h
    · intro heq
      have hlen := congrArg (fun x => x.sets.length) heq
      simp only at hlen
      rw [← hok2] at hlen
      simp only at hlen
      rw [jsWrite_length_of_le _ _ _ h] at hlen
      omega
  · intro st2 st3 h2 h3
    unfold skipSet at h2 h3
    injection h2 with h2b
    injection h3 with h3b
    rw [← h2b, ← h3b]

/-- C1, witness for the amended theorem at a concrete out-of-range
call. -/
theorem setOps_perform_no_validation_witness :
    exActive.sets.length ≤ 3 ∧
    (∃ st2, skipSet exActive 3 = .ok st2) ∧
    completeSet exActive 3 none none = .error .TypeError := by
  refine ⟨by decide, ?_, ?_⟩
  · exact (setOps_perform_no_validation exActive 3).1
  · exact (setOps_perform_no_validation exActive 3).2.2.2.1 (by decide)

/-- C2 (code bug).  `pauseWorkout` sets the pause flag with no guard,
so pausing from the initial `Idle` state yields a reachable state with
`isPaused = true` while `isActive = false` — violating the claimed
invariant that the pause flag is true only while the activity flag is,
and the claimed no-op behaviour of `pause()` from `Idle`. -/
theorem pauseWorkout_from_idle_sets_pause_flag :
    pauseWorkout initialState = { initialState with isPaused := true } ∧
    (pauseWorkout initialState).isActive = false ∧
    (pauseWorkout initialState).isPaused = true := by
  decide

/-- C7.  `tick()` adds exactly one second exactly when the machine is
Active-Running; it is the identity in `Idle` and Active-Paused (so
ticks issued there are lost); and N ticks from an Active-Running state
that is never paused add exactly N seconds. -/
theorem tick_advances_iff_running (st : WorkoutState) (n : Nat) :
    ((tick st).elapsedSeconds = st.elapsedSeconds + 1 ↔
      st.isActive = true ∧ st.isPaused = false) ∧
    (st.isActive = true ∧ st.isPaused = false →
      tick st = { st with elapsedSeconds := st.elapsedSeconds + 1 }) ∧
    (¬(st.isActive = true ∧ st.isPaused = false) → tick st = st) ∧
    (st.isActive = true ∧ st.isPaused = false →
      (tick^[n] st).elapsedSeconds = st.elapsedSeconds + n) := by
  refine ⟨⟨?_, ?_⟩, fun h => tick_of_running st h.1 h.2,
    tick_of_not_running st, fun h => (tick_iterate st h.1 h.2 n).1⟩
  · intro helapsed
    by_contra hnot
    rw [tick_of_not_running st hnot] at helapsed
    omega
  · intro h
    rw [tick_of_running st h.1 h.2]

/-- C7, witness: five ticks on the freshly started session `exActive`
yield five elapsed seconds. -/
theorem tick_advances_iff_running_witness :
    exActive.isActive = true ∧ exActive.isPaused = false ∧
    (tick^[5] exActive).elapsedSeconds = exActive.elapsedSeconds + 5 :=
  ⟨rfl, rfl, (tick_advances_iff_running exActive 5).2.2.2 ⟨rfl, rfl⟩⟩

/-- C8.  Starting any routine from the initial state and immediately
ending it returns a summary with duration 0 and no completed sets, and
the resulting engine state is the initial state again, component by
component. -/
theorem startWorkout_endWorkout_roundtrip (r : Routine) (now : Int) :
    endWorkout (startWorkout initialState r now) =
      (initialState, .ok { duration := 0, completedSets := [] }) := by
  have hf : jsFilterCompleted ((generateSets r).map some) = .ok [] :=
    jsFilterCompleted_of_no_completed _ fun s hs => by
      rw [(generateSets_all_pending r s hs).1]
      simp
  unfold endWorkout startWorkout
  rw [hf]
  rfl

/-- C8, witness at the concrete routine `exRoutine`. -/
theorem startWorkout_endWorkout_roundtrip_witness :
    endWorkout (startWorkout initialState exRoutine 7) =
      (initialState, .ok { duration := 0, completedSets := [] }) :=
  startWorkout_endWorkout_roundtrip exRoutine 7

/-- C3.  Ending an active (hole-free) session returns a summary whose
duration is the elapsed-seconds value at the moment of the call and
whose `completedSets` is exactly the subsequence of the set sequence
with status `completed`, in plan order (characterised as: a sublist,
all of whose members are completed, containing every completed entry
with its full multiplicity); afterwards the engine is `Idle` with both
flags false, no routine, zero elapsed seconds, empty set sequence and
cursor 0. -/
theorem endWorkout_summary_and_reset (st : WorkoutState)
    (hA : st.isActive = true)
    (hd : (none : Option ActiveSet) ∉ st.sets) :
    ∃ cs : List ActiveSet,
      (endWorkout st).2 =
        .ok { duration := st.elapsedSeconds, completedSets := cs } ∧
      List.Sublist (cs.map some) st.sets ∧
      (∀ s ∈ cs, s.status = some SetStatus.completed) ∧
      (∀ s : ActiveSet, s.status = some SetStatus.completed →
        cs.count s = st.sets.count (some s)) ∧
      (endWorkout st).1.isActive = false ∧
      (endWorkout st).1.isPaused = false ∧
      (endWorkout st).1.routine = none ∧
      (endWorkout st).1.elapsedSeconds = 0 ∧
      (endWorkout st).1.sets = [] ∧
      (endWorkout st).1.currentSetIndex = 0 := by
  obtain ⟨cs, hok, hsub, hcomp, hcount⟩ := jsFilterCompleted_spec st.sets hd
  refine ⟨cs, ?_, hsub, hcomp, hcount, rfl, rfl, rfl, rfl, rfl, rfl⟩
  simp [endWorkout, hok]

/-- C3, witness: ending `exMidSession` (sets 0 and 2 of 3 completed,
42 seconds elapsed). -/
theorem endWorkout_summary_and_reset_witness :
    exMidSession.isActive = true ∧
    (none : Option ActiveSet) ∉ exMidSession.sets ∧
    ∃ cs : List ActiveSet,
      (endWorkout exMidSession).2 =
        .ok { duration := exMidSession.elapsedSeconds,
              completedSets := cs } ∧
      List.Sublist (cs.map some) exMidSession.sets ∧
      (∀ s ∈ cs, s.status = some SetStatus.completed) ∧
      ∀ s : ActiveSet, s.status = some SetStatus.completed →
        cs.count s = exMidSession.sets.count (some s) := by
  refine ⟨rfl, by decide, ?_⟩
  obtain ⟨cs, h1, h2, h3, h4, -⟩ :=
    endWorkout_summary_and_reset exMidSession rfl (by decide)
  exact ⟨cs, h1, h2, h3, h4⟩

/-- C5.  On an active, hole-free session, `completeSet` at an in-range
index recomputes the cursor by scanning strictly forward from the
completed index: if some later position holds a pending entry, the
cursor becomes the first such position; otherwise the cursor is left
unchanged. -/
theorem completeSet_cursor_next_pending (st : WorkoutState) (index : Nat)
    (r w : Option Int) (h : index < st.sets.length)
    (hd : (none : Option ActiveSet) ∉ st.sets) :
    ∃ st2, completeSet st index r w = .ok st2 ∧
      ((∀ j s, st.sets.get? j = some (some s) → j > index →
          s.status ≠ some SetStatus.pending) →
        st2.currentSetIndex = st.currentSetIndex) ∧
      ∀ j s, st.sets.get? j = some (some s) → j > index →
        s.status = some SetStatus.pending →
        (∀ j2 s2, j2 < j → st.sets.get? j2 = some (some s2) → j2 > index →
          s2.status ≠ some SetStatus.pending) →
        st2.currentSetIndex = j := by
  obtain ⟨s, hs⟩ := dense_get st.sets hd index h
  obtain ⟨st2, happ, hsets, -, -, -, -, -, hcursor⟩ :=
    completeSetApply_ok st index (completedEntry s r w) h hd
  refine ⟨st2,
    by rw [completeSet_of_get st index s r w hs]; exact happ, ?_, ?_⟩
  · intro hnone
    rcases hcursor with ⟨heq, -⟩ | ⟨hgt, ⟨s2, hget2, hp2⟩, -⟩
    · exact heq
    · exact absurd hp2 (hnone _ s2 hget2 hgt)
  · intro j s3 hj hgt hp hmin
    rcases hcursor with ⟨heq, hall⟩ | ⟨hgt2, ⟨s2, hget2, hp2⟩, hmin2⟩
    · exact absurd hp (hall j s3 hj hgt)
    · by_contra hne
      rcases Nat.lt_or_ge st2.currentSetIndex j with hlt | hge
      · exact hmin st2.currentSetIndex s2 hlt hget2 hgt2 hp2
      · have hlt2 : j < st2.currentSetIndex := by omega
        exact hmin2 j s3 hlt2 hgt hj hp

/-- C5, witness: on the fresh three-pending-set session, completing set
0 moves the cursor to 1. -/
theorem completeSet_cursor_next_pending_witness :
    0 < exActive.sets.length ∧
    (none : Option ActiveSet) ∉ exActive.sets ∧
    ∃ st2, completeSet exActive 0 none none = .ok st2 ∧
      st2.currentSetIndex = 1 := by
  refine ⟨by decide, by decide, ?_⟩
  obtain ⟨st2, hok, -, hfirst⟩ :=
    completeSet_cursor_next_pending exActive 0 none none
      (by decide) (by decide)
  refine ⟨st2, hok, ?_⟩
  refine hfirst 1
    { exerciseIndex := some 0, setNumber := some 2, targetReps := some 5,
      targetWeight := some 100, status := some SetStatus.pending,
      actualReps := none, actualWeight := none }
    (by decide) (by decide) (by decide) ?_
  intro j2 s2 hlt hget hgt
  omega

/-- C6.  On a hole-free session, `completeSet` at an in-range index
marks the entry completed; an omitted `actualReps` argument defaults
the recorded reps to the entry's target reps, and an omitted
`actualWeight` defaults the recorded weight to the target weight when
that is present and leaves it unset when absent; supplied arguments
are recorded as given. -/
theorem completeSet_defaults_to_targets (st : WorkoutState) (index : Nat)
    (r w : Option Int) (s : ActiveSet)
    (hs : st.sets.get? index = some (some s))
    (hd : (none : Option ActiveSet) ∉ st.sets) :
    ∃ st2 e2, completeSet st index r w = .ok st2 ∧
      st2.sets.get? index = some (some e2) ∧
      e2.status = some SetStatus.completed ∧
      (r = none → e2.actualReps = s.targetReps) ∧
      (∀ x, r = some x → e2.actualReps = some x) ∧
      (w = none → (s.targetWeight = none → e2.actualWeight = none) ∧
        ∀ v, s.targetWeight = some v → e2.actualWeight = some v) ∧
      (∀ x, w = some x → e2.actualWeight = some x) := by
  obtain ⟨h, -⟩ := List.get?_eq_some.mp hs
  obtain ⟨st2, happ, hsets, -, -, -, -, -, -⟩ :=
    completeSetApply_ok st index (completedEntry s r w) h hd
  refine ⟨st2, completedEntry s r w,
    by rw [completeSet_of_get st index s r w hs]; exact happ,
    by rw [hsets]; exact List.get?_set_eq_of_lt _ h, rfl, ?_, ?_, ?_, ?_⟩
  · intro hr
    subst hr
    rfl
  · intro x hr
    subst hr
    rfl
  · intro hw
    subst hw
    exact ⟨fun htw => htw, fun v htv => htv⟩
  · intro x hw
    subst hw
    rfl

/-- C6, witness: completing set 0 of the fresh session with no
arguments records reps 5 and weight 100, the targets. -/
theorem completeSet_defaults_to_targets_witness :
    exActive.sets.get? 0 = some (some (exEntry SetStatus.pending)) ∧
    ∃ st2 e2, completeSet exActive 0 none none = .ok st2 ∧
      st2.sets.get? 0 = some (some e2) ∧
      e2.status = some SetStatus.completed ∧
      e2.actualReps = some 5 ∧ e2.actualWeight = some 100 := by
  refine ⟨by decide, ?_⟩
  obtain ⟨st2, e2, h1, h2, h3, h4, -, h6, -⟩ :=
    completeSet_defaults_to_targets exActive 0 none none
      (exEntry SetStatus.pending) (by decide) (by decide)
  refine ⟨st2, e2, h1, h2, h3, h4 rfl, ?_⟩
  exact (h6 rfl).2 100 rfl

/-- C4.  The set plan of a routine decomposes into one block per
exercise, in exercise order; the block of the exercise at position `i`
has exactly `max(target_sets, 0)` entries (so a non-positive count
contributes zero entries, without error), and its `k`-th entry is set
number `k+1` of exercise `i` with the exercise's targets, status
`pending`, and no actual reps or weight; the total length is the sum
of the per-exercise counts. -/
theorem generateSets_spec (r : Routine) :
    ∃ blocks : List (List ActiveSet),
      generateSets r = blocks.flatten ∧
      blocks.length = r.exercises.length ∧
      (generateSets r).length =
        (r.exercises.map fun e => e.target_sets.toNat).sum ∧
      (∀ s ∈ generateSets r, s.status = some SetStatus.pending ∧
        s.actualReps = none ∧ s.actualWeight = none) ∧
      ∀ i e, r.exercises.get? i = some e →
        ∃ block, blocks.get? i = some block ∧
          block.length = e.target_sets.toNat ∧
          ∀ k, k < block.length →
            block.get? k = some
              { exerciseIndex := some i, setNumber := some (k + 1),
                targetReps := some e.target_reps,
                targetWeight := e.target_weight,
                status := some SetStatus.pending, actualReps := none,
                actualWeight := none } := by
  refine ⟨r.exercises.enum.map fun p => setsForExercise p.1 p.2, by rfl,
    ?_, ?_, generateSets_all_pending r, ?_⟩
  · rw [List.length_map, List.enum_length]
  · unfold generateSets
    rw [List.length_flatten, List.map_map]
    have h1 : List.map
        (List.length ∘ fun p : Nat × RoutineExercise =>
          setsForExercise p.1 p.2) r.exercises.enum =
        List.map ((fun e : RoutineExercise => e.target_sets.toNat) ∘
          Prod.snd) r.exercises.enum :=
      List.map_congr_left fun p _ => setsForExercise_length p.1 p.2
    rw [h1, ← List.map_map, List.enum_map_snd]
  · intro i e hie
    refine ⟨setsForExercise i e, ?_, setsForExercise_length i e, ?_⟩
    · rw [List.get?_map, List.enum_get?, hie]
      rfl
    · intro k hk
      rw [setsForExercise_length i e] at hk
      unfold setsForExercise
      rw [List.get?_map, List.get?_range hk]
      rfl

/-- C4, witness at the concrete routine `exRoutine` (one exercise of
three sets). -/
theorem generateSets_spec_witness :
    (generateSets exRoutine).length =
      (exRoutine.exercises.map fun e => e.target_sets.toNat).sum ∧
    ∃ blocks : List (List ActiveSet),
      generateSets exRoutine = blocks.flatten ∧
      blocks.length = exRoutine.exercises.length := by
  obtain ⟨blocks, h1, h2, h3, -, -⟩ := generateSets_spec exRoutine
  exact ⟨h3, blocks, h1, h2⟩

/-- C9.  On a hole-free session, each of `completeSet`, `skipSet` and
`editSet` at an in-range index leaves the session flags, clock,
routine, timestamp, array length, all non-targeted entries, and the
targeted entry's identification and target fields unchanged; `skipSet`
and `editSet` additionally leave the cursor unchanged. -/
theorem setOps_frame_conditions (st : WorkoutState) (index : Nat)
    (h : index < st.sets.length)
    (hd : (none : Option ActiveSet) ∉ st.sets) :
    (∀ r w : Option Int, ∃ st2, completeSet st index r w = .ok st2 ∧
      FramePreserved st st2 index) ∧
    (∃ st2, skipSet st index = .ok st2 ∧ FramePreserved st st2 index ∧
      st2.currentSetIndex = st.currentSetIndex) ∧
    (∀ reps weight : Int, ∃ st2,
      editSet st index reps weight = .ok st2 ∧
      FramePreserved st st2 index ∧
      st2.currentSetIndex = st.currentSetIndex) := by
  obtain ⟨s, hs⟩ := dense_get st.sets hd index h
  have hfun : ∀ s2, st.sets.get? index = some (some s2) → s2 = s := by
    intro s2 h2
    injection hs.symm.trans h2 with hh
    injection hh with hh2
    exact hh2.symm
  refine ⟨?_, ?_, ?_⟩
  · intro r w
    obtain ⟨st2, happ, hsets, hA, hP, hR, hT, hE, -⟩ :=
      completeSetApply_ok st index (completedEntry s r w) h hd
    refine ⟨st2,
      by rw [completeSet_of_get st index s r w hs]; exact happ, ?_⟩
    refine frame_of_set st st2 index (completedEntry s r w)
      hsets hA hP hE hR hT ?_ h
    intro s2 h2
    obtain rfl := hfun s2 h2
    exact ⟨rfl, rfl, rfl, rfl⟩
  · refine ⟨_, skipSet_of_get st index s hs, ?_, rfl⟩
    refine frame_of_set st _ index
      { s with status := some SetStatus.skipped }
      rfl rfl rfl rfl rfl rfl ?_ h
    intro s2 h2
    obtain rfl := hfun s2 h2
    exact ⟨rfl, rfl, rfl, rfl⟩
  · intro reps weight
    refine ⟨_, editSet_of_get st index s reps weight hs, ?_, rfl⟩
    refine frame_of_set st _ index
      { s with actualReps := some reps, actualWeight := some weight }
      rfl rfl rfl rfl rfl rfl ?_ h
    intro s2 h2
    obtain rfl := hfun s2 h2
    exact ⟨rfl, rfl, rfl, rfl⟩

/-- C9, witness: skipping set 0 of `exMidSession` preserves the frame
and the cursor. -/
theorem setOps_frame_conditions_witness :
    0 < exMidSession.sets.length ∧
    (none : Option ActiveSet) ∉ exMidSession.sets ∧
    ∃ st2, skipSet exMidSession 0 = .ok st2 ∧
      FramePreserved exMidSession st2 0 ∧
      st2.currentSetIndex = exMidSession.currentSetIndex := by
  refine ⟨by decide, by decide, ?_⟩
  exact (setOps_frame_conditions exMidSession 0 (by decide)
    (by decide)).2.1

/-- C10.  `completeSet` does not require the targeted entry to be
pending: at an in-range index whose entry is already completed or
skipped, it sets the status to completed and overwrites the recorded
actuals with the supplied values or the target-derived defaults,
regardless of any previously recorded actuals. -/
theorem completeSet_overwrites_nonpending (st : WorkoutState)
    (index : Nat) (r w : Option Int) (s : ActiveSet)
    (hs : st.sets.get? index = some (some s))
    (hstat : s.status = some SetStatus.completed ∨
      s.status = some SetStatus.skipped)
    (hd : (none : Option ActiveSet) ∉ st.sets) :
    ∃ st2 e2, completeSet st index r w = .ok st2 ∧
      st2.sets.get? index = some (some e2) ∧
      e2.status = some SetStatus.completed ∧
      (r = none → e2.actualReps = s.targetReps) ∧
      (∀ x, r = some x → e2.actualReps = some x) ∧
      (w = none → e2.actualWeight = s.targetWeight) ∧
      (∀ x, w = some x → e2.actualWeight = some x) := by
  obtain ⟨h, -⟩ := List.get?_eq_some.mp hs
  obtain ⟨st2, happ, hsets, -, -, -, -, -, -⟩ :=
    completeSetApply_ok st index (completedEntry s r w) h hd
  refine ⟨st2, completedEntry s r w,
    by rw [completeSet_of_get st index s r w hs]; exact happ,
    by rw [hsets]; exact List.get?_set_eq_of_lt _ h, rfl, ?_, ?_, ?_, ?_⟩
  · intro hr
    subst hr
    rfl
  · intro x hr
    subst hr
    rfl
  · intro hw
    subst hw
    rfl
  · intro x hw
    subst hw
    rfl

/-- C10, witness: recompleting the already-completed set 0 of
`exRecorded` (which has recorded reps 99 and weight 77) discards those
values in favour of the targets 5 and 100. -/
theorem completeSet_overwrites_nonpending_witness :
    exRecorded.sets.get? 0 =
      some (some { exEntry SetStatus.completed with
                   actualReps := some 99, actualWeight := some 77 }) ∧
    ∃ st2 e2, completeSet exRecorded 0 none none = .ok st2 ∧
      st2.sets.get? 0 = some (some e2) ∧
      e2.status = some SetStatus.completed ∧
      e2.actualReps = some 5 ∧ e2.actualWeight = some 100 := by
  refine ⟨by decide, ?_⟩
  obtain ⟨st2, e2, h1, h2, h3, h4, -, h6, -⟩ :=
    completeSet_overwrites_nonpending exRecorded 0 none none
      { exEntry SetStatus.completed with
        actualReps := some 99, actualWeight := some 77 }
      (by decide) (Or.inl (by decide)) (by decide)
  exact ⟨st2, e2, h1, h2, h3, h4 rfl, h6 rfl⟩

end RepFit
